import Mathlib

/-!
Verification of the line-transposition scripts of the onewriter-actions
repository.  The text buffer is modelled as a `List Char`; the host editor
API calls (`getTextInRange`, `replaceTextInRange`, `setSelectedRange`,
`lastIndexOf`, `indexOf`) are shallowly embedded as pure functions, and each
script is embedded as a function from the buffer and the host-supplied
selected line range to the list of mutating host calls it issues.
-/

set_option autoImplicit false

namespace OneWriter

/-- The newline character. -/
def nl : Char := Char.ofNat 10

/-- Host `getTextInRange(a, b)` under the declared API: both arguments are
absolute character positions, the result is the text of the half-open range
`[a, b)` (empty when `a ≥ b`). -/
def substringRange (t : List Char) (a b : Nat) : List Char :=
  (t.drop a).take (b - a)

/-- Host `replaceTextInRange(a, b, s)`: the text of the range `[a, b)` is
replaced by `s`. -/
def replaceRange (t : List Char) (a b : Nat) (s : List Char) : List Char :=
  t.take a ++ s ++ t.drop b

/-- JavaScript `text.lastIndexOf("\n", p)`: the largest index `j ≤ p` such
that the character at `j` is a newline, or `none`. -/
def lastIndexOfNl (t : List Char) : Nat → Option Nat
  | 0 => if t[0]? = some nl then some 0 else none
  | p + 1 => if t[p + 1]? = some nl then some (p + 1) else lastIndexOfNl t p

/-- Index of the first newline of a list, or `none`. -/
def firstNlIdx : List Char → Option Nat
  | [] => none
  | c :: cs => if c = nl then some 0 else (firstNlIdx cs).map (· + 1)

/-- JavaScript `text.indexOf("\n", p)`: the smallest index `j ≥ p` such that
the character at `j` is a newline, or `none`. -/
def indexOfNlFrom (t : List Char) (p : Nat) : Option Nat :=
  (firstNlIdx (t.drop p)).map (· + p)

/-- A mutating host call issued by a script: either
`replaceTextInRange(a, b, s)` or `setSelectedRange(a, b?)` (with `b`
omitted the caret moves to `a`). -/
inductive Effect : Type
  | replace (a b : Nat) (s : List Char) : Effect
  | setSel (a : Nat) (b : Option Nat) : Effect
deriving DecidableEq

/-- The host editor state visible to the scripts: the buffer text and the
current selection. -/
structure EditorState : Type where
  text : List Char
  selStart : Nat
  selEnd : Nat
deriving DecidableEq

/-- Execute one mutating host call on the editor state. -/
def applyEffect (st : EditorState) : Effect → EditorState
  | .replace a b s => { st with text := replaceRange st.text a b s }
  | .setSel a none => { st with selStart := a, selEnd := a }
  | .setSel a (some b) => { st with selStart := a, selEnd := b }

/-- Execute a list of mutating host calls in order. -/
def applyEffects (st : EditorState) (effs : List Effect) : EditorState :=
  effs.foldl applyEffect st

/-- Embedding of `src/actions/Move Up Current Line.js`: given the buffer
`text` and the host-supplied selected line range `[start, e)`, the list of
mutating host calls the script performs.  Mirrors the source line by line:
`prevEnd = start - 1`; if `prevEnd > 0`, `prevStart` is
`lastIndexOf("\n", prevEnd - 1)` adjusted (`0` when not found, found
index `+ 1` otherwise), and the script replaces `[prevStart, e)` with
`currentLine ++ "\n" ++ prevLine` and calls `setSelectedRange(prevStart)`. -/
def moveUpEffects (text : List Char) (start e : Nat) : List Effect :=
  let currentLine := substringRange text start e
  let prevEnd := start - 1
  if 0 < prevEnd then
    let prevStart := (lastIndexOfNl text (prevEnd - 1)).elim 0 (fun i => i + 1)
    let prevLine := substringRange text prevStart prevEnd
    [Effect.replace prevStart e (currentLine ++ nl :: prevLine),
     Effect.setSel prevStart none]
  else []

/-- Embedding of `src/actions/Move Down Current Line.js`: given the buffer
`text` and the host-supplied selected line range `[start, e)`, the list of
mutating host calls the script performs.  Mirrors the source:
`nextStart = e + 1`; if `nextStart < text.length`, `nextEnd` is
`indexOf("\n", nextStart)` (or `text.length` when not found), and the
script replaces `[start, nextEnd)` with `nextLine ++ "\n" ++ currentLine`;
no selection call is made. -/
def moveDownEffects (text : List Char) (start e : Nat) : List Effect :=
  let currentLine := substringRange text start e
  let nextStart := e + 1
  if nextStart < text.length then
    let nextEnd := (indexOfNlFrom text nextStart).getD text.length
    let nextLine := substringRange text nextStart nextEnd
    [Effect.replace start nextEnd (nextLine ++ nl :: currentLine)]
  else []

/-- Embedding of the trim script `src/unnamed/part_001` under the declared
host API: `eol = start + e`; if `getTextInRange(eol - 1, 1)` — the text of
the absolute range `[eol - 1, 1)` — equals `"\n"`, then `eol` is
decremented; finally the script calls `setSelectedRange(start, eol - start)`. -/
def trimEffects (text : List Char) (start e : Nat) : List Effect :=
  let eol := start + e
  let eol := if substringRange text (eol - 1) 1 = [nl] then eol - 1 else eol
  [Effect.setSel start (some (eol - start))]

/-- The lines of a buffer, joined by single newlines (inverse of splitting
the buffer on newline characters). -/
def joinNl : List (List Char) → List Char
  | [] => []
  | [l] => l
  | l :: l₂ :: ls => l ++ nl :: joinNl (l₂ :: ls)

/-- The text following a given line inside a joined buffer: empty when no
lines follow, otherwise a newline followed by the joined remaining lines. -/
def joinTail : List (List Char) → List Char
  | [] => []
  | l :: ls => nl :: joinNl (l :: ls)

/-- The concatenation of a list of lines, each followed by a newline. -/
def nlBlocks : List (List Char) → List Char
  | [] => []
  | l :: ls => l ++ nl :: nlBlocks ls

/-- Start offset of line `i` in a buffer with the given lines: the sum of
`length + 1` over the preceding lines. -/
def lineStart : List (List Char) → Nat → Nat
  | _, 0 => 0
  | [], _ + 1 => 0
  | l :: ls, i + 1 => l.length + 1 + lineStart ls i

/-! ### Helper lemmas about the newline searches -/

theorem lastIndexOfNl_eq_none (t : List Char) (p : Nat)
    (h : ∀ j, j ≤ p → t[j]? ≠ some nl) : lastIndexOfNl t p = none := by
  induction p with
  | zero => rw [lastIndexOfNl, if_neg (h 0 (Nat.le_refl 0))]
  | succ p ih =>
    rw [lastIndexOfNl, if_neg (h (p + 1) (Nat.le_refl _))]
    exact ih fun j hj => h j (Nat.le_succ_of_le hj)

theorem lastIndexOfNl_eq_some (t : List Char) (k p : Nat)
    (hk : t[k]? = some nl) (hkp : k ≤ p)
    (hmax : ∀ j, k < j → j ≤ p → t[j]? ≠ some nl) :
    lastIndexOfNl t p = some k := by
  induction p with
  | zero =>
    have hk0 : k = 0 := Nat.le_zero.mp hkp
    subst hk0
    rw [lastIndexOfNl, if_pos hk]
  | succ p ih =>
    rcases Nat.eq_or_lt_of_le hkp with h | h
    · subst h
      rw [lastIndexOfNl, if_pos hk]
    · have hk' : k ≤ p := Nat.lt_succ_iff.mp h
      rw [lastIndexOfNl, if_neg (hmax (p + 1) (Nat.lt_succ_of_le hk') (Nat.le_refl _))]
      exact ih hk' fun j h1 h2 => hmax j h1 (Nat.le_succ_of_le h2)

theorem getElem?_middle_not_nl (X R rest : List Char) (hR : nl ∉ R) (j : Nat)
    (h1 : X.length ≤ j) (h2 : j < X.length + R.length) :
    (X ++ R ++ rest)[j]? ≠ some nl := by
  rw [List.append_assoc, List.getElem?_append_right h1,
    List.getElem?_append_left (show j - X.length < R.length by omega)]
  intro hc
  exact hR (List.getElem?_mem hc)

theorem lastIndexOfNl_no_nl_before (A rest : List Char) (hA : nl ∉ A) (p : Nat)
    (hp : p < A.length) : lastIndexOfNl (A ++ rest) p = none := by
  apply lastIndexOfNl_eq_none
  intro j hj hc
  rw [List.getElem?_append_left (Nat.lt_of_le_of_lt hj hp)] at hc
  exact hA (List.getElem?_mem hc)

theorem lastIndexOfNl_of_trailing_nl (Q A rest : List Char) (hA : nl ∉ A) :
    lastIndexOfNl ((Q ++ [nl]) ++ A ++ rest) (Q.length + A.length) = some Q.length := by
  apply lastIndexOfNl_eq_some
  · rw [List.append_assoc (Q ++ [nl]),
      List.getElem?_append_left (show Q.length < (Q ++ [nl]).length by simp)]
    simp
  · omega
  · intro j hj1 hj2
    exact getElem?_middle_not_nl (Q ++ [nl]) A rest hA j (by simp; omega) (by simp; omega)

theorem firstNlIdx_eq_none (R : List Char) (hR : nl ∉ R) : firstNlIdx R = none := by
  induction R with
  | nil => rfl
  | cons c cs ih =>
    have hc : ¬ c = nl := fun h => hR (h ▸ List.mem_cons_self c cs)
    rw [firstNlIdx, if_neg hc, ih fun h => hR (List.mem_cons_of_mem c h)]
    rfl

theorem firstNlIdx_append_nl (R rest : List Char) (hR : nl ∉ R) :
    firstNlIdx (R ++ nl :: rest) = some R.length := by
  induction R with
  | nil => simp [firstNlIdx]
  | cons c cs ih =>
    have hc : ¬ c = nl := fun h => hR (h ▸ List.mem_cons_self c cs)
    rw [List.cons_append, firstNlIdx, if_neg hc,
      ih fun h => hR (List.mem_cons_of_mem c h)]
    rfl

/-! ### Helper lemmas about the decomposed buffer

A buffer in which line `A` is immediately followed by line `B` decomposes as
`P ++ (A ++ (nl :: (B ++ S)))`, where `P` is everything before `A` (empty or
ending in a newline) and `S` is everything after `B` (empty or starting with
a newline). -/

theorem take_start_eq (P A B S : List Char) :
    (P ++ (A ++ (nl :: (B ++ S)))).take P.length = P :=
  List.take_left P _

theorem drop_prevStart_eq (P A B S : List Char) :
    (P ++ (A ++ (nl :: (B ++ S)))).drop P.length = A ++ (nl :: (B ++ S)) :=
  List.drop_left P _

theorem drop_start_eq (P A B S : List Char) :
    (P ++ (A ++ (nl :: (B ++ S)))).drop (P.length + A.length + 1) = B ++ S := by
  have h : P ++ (A ++ (nl :: (B ++ S))) = ((P ++ A) ++ [nl]) ++ (B ++ S) := by simp
  rw [h, List.drop_left' (show ((P ++ A) ++ [nl]).length = P.length + A.length + 1 by
    simp only [List.length_append, List.length_cons, List.length_nil])]

theorem drop_end_eq (P A B S : List Char) :
    (P ++ (A ++ (nl :: (B ++ S)))).drop (P.length + A.length + 1 + B.length) = S := by
  have h : P ++ (A ++ (nl :: (B ++ S))) = (((P ++ A) ++ [nl]) ++ B) ++ S := by simp
  rw [h, List.drop_left' (show (((P ++ A) ++ [nl]) ++ B).length
      = P.length + A.length + 1 + B.length by
    simp only [List.length_append, List.length_cons, List.length_nil])]

theorem currentLine_eq (P A B S : List Char) :
    substringRange (P ++ (A ++ (nl :: (B ++ S)))) (P.length + A.length + 1)
      (P.length + A.length + 1 + B.length) = B := by
  rw [substringRange, drop_start_eq, Nat.add_sub_cancel_left]
  exact List.take_left B S

theorem prevLine_eq (P A B S : List Char) :
    substringRange (P ++ (A ++ (nl :: (B ++ S)))) P.length (P.length + A.length) = A := by
  rw [substringRange, drop_prevStart_eq,
    show P.length + A.length - P.length = A.length by omega]
  exact List.take_left A _

theorem length_decomp (P A B S : List Char) :
    (P ++ (A ++ (nl :: (B ++ S)))).length = P.length + A.length + 1 + B.length + S.length := by
  simp only [List.length_append, List.length_cons]
  omega

/-! ### Core behaviour of the two transposition scripts on a decomposed buffer -/

theorem moveUp_core (P A B S : List Char) (hA : nl ∉ A)
    (hP : P = [] ∨ ∃ Q, P = Q ++ [nl]) (hguard : 1 ≤ P.length + A.length) :
    moveUpEffects (P ++ (A ++ (nl :: (B ++ S)))) (P.length + A.length + 1)
        (P.length + A.length + 1 + B.length) =
      [Effect.replace P.length (P.length + A.length + 1 + B.length) (B ++ nl :: A),
       Effect.setSel P.length none] := by
  have hps : (lastIndexOfNl (P ++ (A ++ (nl :: (B ++ S))))
      (P.length + A.length - 1)).elim 0 (fun i => i + 1) = P.length := by
    rcases hP with hQ | ⟨Q, hQ⟩
    · subst hQ
      simp only [List.nil_append, List.length_nil, Nat.zero_add] at hguard ⊢
      rw [lastIndexOfNl_no_nl_before A (nl :: (B ++ S)) hA _ (by omega)]
      rfl
    · rw [hQ, ← List.append_assoc,
        show (Q ++ [nl]).length + A.length - 1 = Q.length + A.length by simp,
        lastIndexOfNl_of_trailing_nl Q A _ hA]
      simp [Option.elim]
  simp only [moveUpEffects]
  rw [Nat.add_sub_cancel, if_pos (show 0 < P.length + A.length by omega), hps,
    currentLine_eq, prevLine_eq]

theorem moveUp_apply (P A B S : List Char) (hA : nl ∉ A)
    (hP : P = [] ∨ ∃ Q, P = Q ++ [nl]) (hguard : 1 ≤ P.length + A.length)
    (s0 e0 : Nat) :
    applyEffects ⟨P ++ (A ++ (nl :: (B ++ S))), s0, e0⟩
        (moveUpEffects (P ++ (A ++ (nl :: (B ++ S)))) (P.length + A.length + 1)
          (P.length + A.length + 1 + B.length)) =
      ⟨P ++ (B ++ (nl :: (A ++ S))), P.length, P.length⟩ := by
  rw [moveUp_core P A B S hA hP hguard]
  simp only [applyEffects, List.foldl, applyEffect, replaceRange]
  rw [take_start_eq, drop_end_eq]
  simp [List.append_assoc]

theorem moveDown_core (P A B S : List Char) (hB : nl ∉ B)
    (hS : S = [] ∨ ∃ S₂, S = nl :: S₂) (hguard : 0 < B.length + S.length) :
    moveDownEffects (P ++ (A ++ (nl :: (B ++ S)))) P.length (P.length + A.length) =
      [Effect.replace P.length (P.length + A.length + 1 + B.length) (B ++ nl :: A)] := by
  have hend : (indexOfNlFrom (P ++ (A ++ (nl :: (B ++ S)))) (P.length + A.length + 1)).getD
      (P.length + A.length + 1 + B.length + S.length) = P.length + A.length + 1 + B.length := by
    rw [indexOfNlFrom, drop_start_eq]
    rcases hS with hS | ⟨S₂, hS⟩
    · subst hS
      rw [List.append_nil, firstNlIdx_eq_none B hB]
      simp
    · subst hS
      rw [firstNlIdx_append_nl B S₂ hB]
      simp only [Option.map_some', Option.getD_some]
      omega
  simp only [moveDownEffects]
  rw [prevLine_eq, length_decomp, if_pos (by omega), hend, currentLine_eq]

theorem moveDown_apply (P A B S : List Char) (hB : nl ∉ B)
    (hS : S = [] ∨ ∃ S₂, S = nl :: S₂) (hguard : 0 < B.length + S.length)
    (s0 e0 : Nat) :
    applyEffects ⟨P ++ (A ++ (nl :: (B ++ S))), s0, e0⟩
        (moveDownEffects (P ++ (A ++ (nl :: (B ++ S)))) P.length (P.length + A.length)) =
      ⟨P ++ (B ++ (nl :: (A ++ S))), s0, e0⟩ := by
  rw [moveDown_core P A B S hB hS hguard]
  simp only [applyEffects, List.foldl, applyEffect, replaceRange]
  rw [take_start_eq, drop_end_eq]
  simp [List.append_assoc]

/-! ### Lemmas relating joined lines, line starts and the decomposition -/

theorem joinTail_ne (ls : List (List Char)) (h : ls ≠ []) :
    joinTail ls = nl :: joinNl ls := by
  cases ls with
  | nil => exact absurd rfl h
  | cons l ls => rfl

theorem joinNl_cons (l : List Char) (ls : List (List Char)) :
    joinNl (l :: ls) = l ++ joinTail ls := by
  cases ls with
  | nil => simp [joinNl, joinTail]
  | cons l₂ ls => rfl

theorem joinNl_append (ls₁ ls₂ : List (List Char)) (h : ls₂ ≠ []) :
    joinNl (ls₁ ++ ls₂) = nlBlocks ls₁ ++ joinNl ls₂ := by
  induction ls₁ with
  | nil => rfl
  | cons l ls ih =>
    have hne : ls ++ ls₂ ≠ [] := fun hc => h (List.append_eq_nil.mp hc).2
    rw [List.cons_append, joinNl_cons, joinTail_ne _ hne, ih, nlBlocks]
    simp [List.append_assoc]

theorem lineStart_zero (ls : List (List Char)) : lineStart ls 0 = 0 := by
  cases ls <;> rfl

theorem lineStart_append_len (ls₁ rest : List (List Char)) :
    lineStart (ls₁ ++ rest) ls₁.length = (nlBlocks ls₁).length := by
  induction ls₁ with
  | nil => exact lineStart_zero rest
  | cons l ls ih =>
    rw [List.cons_append, List.length_cons, lineStart, ih, nlBlocks]
    simp
    omega

theorem lineStart_append_succ (ls₁ : List (List Char)) (A : List Char)
    (rest : List (List Char)) :
    lineStart (ls₁ ++ A :: rest) (ls₁.length + 1) = (nlBlocks ls₁).length + A.length + 1 := by
  induction ls₁ with
  | nil =>
    rw [List.nil_append, List.length_nil, lineStart, lineStart]
    simp [nlBlocks]
  | cons l ls ih =>
    rw [List.cons_append, List.length_cons, lineStart, ih, nlBlocks]
    simp
    omega

theorem nlBlocks_shape (ls : List (List Char)) :
    nlBlocks ls = [] ∨ ∃ Q, nlBlocks ls = Q ++ [nl] := by
  induction ls with
  | nil => exact Or.inl rfl
  | cons l ls ih =>
    rcases ih with h | ⟨Q, h⟩
    · exact Or.inr ⟨l, by rw [nlBlocks, h]⟩
    · exact Or.inr ⟨l ++ nl :: Q, by rw [nlBlocks, h]; simp⟩


end OneWriter

namespace OneWriter

/-! ### Claim theorems -/

/-- C2: when the selected line is the first line of the buffer (so that
`prevEnd = start - 1 ≤ 0`), the "move line up" script performs no
`replaceTextInRange` and no `setSelectedRange` call and leaves the editor
state (buffer and selection) unchanged. -/
theorem moveUp_first_line_noop (st : EditorState) (start e : Nat)
    (h : start ≤ 1) :
    moveUpEffects st.text start e = [] ∧
    applyEffects st (moveUpEffects st.text start e) = st := by
  have h2 : moveUpEffects st.text start e = [] := by
    simp only [moveUpEffects]
    rw [if_neg (by omega)]
  exact ⟨h2, by rw [h2]; rfl⟩

/-- Witness for C2 at the buffer `"a\nb"` with the first line selected. -/
theorem moveUp_first_line_noop_witness :
    (0 : Nat) ≤ 1 ∧
    (moveUpEffects (EditorState.mk "a\nb".toList 0 1).text 0 1 = [] ∧
      applyEffects ⟨"a\nb".toList, 0, 1⟩
        (moveUpEffects (EditorState.mk "a\nb".toList 0 1).text 0 1) = ⟨"a\nb".toList, 0, 1⟩) :=
  ⟨by decide, moveUp_first_line_noop ⟨"a\nb".toList, 0, 1⟩ 0 1 (by decide)⟩

/-- C3: when the selected line is the last line of the buffer (so that
`nextStart = end + 1 ≥ bufferLength`), the "move line down" script performs
no mutating host call and leaves the editor state unchanged. -/
theorem moveDown_last_line_noop (st : EditorState) (start e : Nat)
    (h : st.text.length ≤ e + 1) :
    moveDownEffects st.text start e = [] ∧
    applyEffects st (moveDownEffects st.text start e) = st := by
  have h2 : moveDownEffects st.text start e = [] := by
    simp only [moveDownEffects]
    rw [if_neg (by omega)]
  exact ⟨h2, by rw [h2]; rfl⟩

/-- Witness for C3 at the buffer `"a\nb"` with the last line selected. -/
theorem moveDown_last_line_noop_witness :
    ("a\nb".toList).length ≤ 3 + 1 ∧
    (moveDownEffects (EditorState.mk "a\nb".toList 2 3).text 2 3 = [] ∧
      applyEffects ⟨"a\nb".toList, 2, 3⟩
        (moveDownEffects (EditorState.mk "a\nb".toList 2 3).text 2 3) = ⟨"a\nb".toList, 2, 3⟩) :=
  ⟨by decide, moveDown_last_line_noop ⟨"a\nb".toList, 2, 3⟩ 2 3 (by decide)⟩

/-- C9: the "move line up" script issues mutating host calls if and only if
the selected line range starts at offset `start ≥ 2`; in particular, when
the first line of the buffer is empty and the selection is on the second
line starting at offset `1` (buffer `"\nb"`, line range `[1, 2)`), the
script is a silent no-op even though a previous (empty) line exists. -/
theorem moveUp_guard_iff :
    (∀ (text : List Char) (start e : Nat),
      moveUpEffects text start e ≠ [] ↔ 2 ≤ start) ∧
    joinNl [[], ['b']] = nl :: ['b'] ∧
    lineStart [[], ['b']] 1 = 1 ∧
    moveUpEffects (joinNl [[], ['b']]) 1 2 = [] := by
  refine ⟨fun text start e => ?_, by decide, by decide, by decide⟩
  constructor
  · intro hne
    by_contra hlt
    apply hne
    simp only [moveUpEffects]
    rw [if_neg (by omega)]
  · intro h2
    simp only [moveUpEffects]
    rw [if_pos (by omega)]
    simp


/-- C1 fails as stated: at the buffer `"\nb"` (an empty first line followed
by line `"b"`), with the selected line range being line 1 (`[1, 2)`), the
"move line up" script leaves the buffer unchanged instead of producing the
swapped buffer `"b\n"`. -/
theorem moveUp_swap_cex :
    applyEffects ⟨joinNl [[], ['b']], 1, 2⟩
        (moveUpEffects (joinNl [[], ['b']]) (lineStart [[], ['b']] 1)
          (lineStart [[], ['b']] 1 + ['b'].length))
      = ⟨joinNl [[], ['b']], 1, 2⟩ ∧
    joinNl [[], ['b']] ≠ joinNl [['b'], []] := by decide

/-- C1 (amended): for a buffer whose lines are `ls₁ ++ A :: B :: ls₂` with
the selected line range being line `i = ls₁.length + 1` (so `i > 0` and the
buffer has at least two lines), and whose start offset is at least `2`
(which excludes exactly the case of an empty first line at `i = 1`), the
"move line up" script produces the buffer with lines `i - 1` and `i`
swapped, the total length is preserved, and the caret is collapsed to the
start offset of the relocated line (`prevStart`, the start offset of line
`i - 1`). -/
theorem moveUp_swaps_adjacent_lines (ls₁ ls₂ : List (List Char)) (A B : List Char)
    (s0 e0 : Nat) (hA : nl ∉ A) (hB : nl ∉ B) (h₁ : ∀ l ∈ ls₁, nl ∉ l)
    (hstart : 2 ≤ lineStart (ls₁ ++ A :: B :: ls₂) (ls₁.length + 1)) :
    applyEffects ⟨joinNl (ls₁ ++ A :: B :: ls₂), s0, e0⟩
        (moveUpEffects (joinNl (ls₁ ++ A :: B :: ls₂))
          (lineStart (ls₁ ++ A :: B :: ls₂) (ls₁.length + 1))
          (lineStart (ls₁ ++ A :: B :: ls₂) (ls₁.length + 1) + B.length)) =
      ⟨joinNl (ls₁ ++ B :: A :: ls₂),
       lineStart (ls₁ ++ A :: B :: ls₂) ls₁.length,
       lineStart (ls₁ ++ A :: B :: ls₂) ls₁.length⟩ ∧
    (joinNl (ls₁ ++ B :: A :: ls₂)).length = (joinNl (ls₁ ++ A :: B :: ls₂)).length := by
  have hs : lineStart (ls₁ ++ A :: B :: ls₂) (ls₁.length + 1)
      = (nlBlocks ls₁).length + A.length + 1 := lineStart_append_succ ls₁ A (B :: ls₂)
  have htext : joinNl (ls₁ ++ A :: B :: ls₂)
      = nlBlocks ls₁ ++ (A ++ (nl :: (B ++ joinTail ls₂))) := by
    rw [joinNl_append ls₁ (A :: B :: ls₂) (List.cons_ne_nil _ _), joinNl_cons,
      joinTail_ne (B :: ls₂) (List.cons_ne_nil _ _), joinNl_cons]
  have htext2 : joinNl (ls₁ ++ B :: A :: ls₂)
      = nlBlocks ls₁ ++ (B ++ (nl :: (A ++ joinTail ls₂))) := by
    rw [joinNl_append ls₁ (B :: A :: ls₂) (List.cons_ne_nil _ _), joinNl_cons,
      joinTail_ne (A :: ls₂) (List.cons_ne_nil _ _), joinNl_cons]
  have hlen : lineStart (ls₁ ++ A :: B :: ls₂) ls₁.length = (nlBlocks ls₁).length :=
    lineStart_append_len ls₁ _
  rw [htext, htext2, hs, hlen]
  constructor
  · exact moveUp_apply (nlBlocks ls₁) A B (joinTail ls₂) hA (nlBlocks_shape ls₁)
      (by omega) s0 e0
  · simp only [List.length_append, List.length_cons]
    omega

/-- Witness for the amended C1, at the spec example: buffer `"a\nb\nc"`,
selection on line `"b"`, yielding `"b\na\nc"` with the caret at offset 0. -/
theorem moveUp_swaps_adjacent_lines_witness :
    applyEffects ⟨joinNl ([] ++ ['a'] :: ['b'] :: [['c']]), 2, 3⟩
        (moveUpEffects (joinNl ([] ++ ['a'] :: ['b'] :: [['c']]))
          (lineStart ([] ++ ['a'] :: ['b'] :: [['c']]) (List.length ([] : List (List Char)) + 1))
          (lineStart ([] ++ ['a'] :: ['b'] :: [['c']]) (List.length ([] : List (List Char)) + 1)
            + ['b'].length)) =
      ⟨joinNl ([] ++ ['b'] :: ['a'] :: [['c']]),
       lineStart ([] ++ ['a'] :: ['b'] :: [['c']]) (List.length ([] : List (List Char))),
       lineStart ([] ++ ['a'] :: ['b'] :: [['c']]) (List.length ([] : List (List Char)))⟩ ∧
    (joinNl ([] ++ ['b'] :: ['a'] :: [['c']])).length
      = (joinNl ([] ++ ['a'] :: ['b'] :: [['c']])).length :=
  moveUp_swaps_adjacent_lines [] [['c']] ['a'] ['b'] 2 3 (by decide) (by decide)
    (by simp) (by decide)


/-- C4 fails as stated: at the buffer `"a\n\nb"` with the selected line
`"b"` (range `[3, 4)`), "move line up" performs a swap (yielding
`"a\nb\n"` with the caret at offset 2), but running "move line down" on
the relocated line (range `[2, 3)`) is a no-op because the relocated line
is now the last line, so the original buffer content is not restored. -/
theorem moveUp_moveDown_roundtrip_cex :
    moveUpEffects "a\n\nb".toList 3 4 ≠ [] ∧
    (applyEffects ⟨"a\n\nb".toList, 3, 4⟩ (moveUpEffects "a\n\nb".toList 3 4)).selStart = 2 ∧
    (applyEffects (applyEffects ⟨"a\n\nb".toList, 3, 4⟩ (moveUpEffects "a\n\nb".toList 3 4))
        (moveDownEffects
          (applyEffects ⟨"a\n\nb".toList, 3, 4⟩ (moveUpEffects "a\n\nb".toList 3 4)).text
          2 3)).text = "a\nb\n".toList ∧
    "a\nb\n".toList ≠ "a\n\nb".toList := by decide

/-- C4 (amended): whenever "move line up" performs a swap, running
"move line down" immediately afterwards on the relocated line (the line
starting at the caret set by "move line up") restores the original buffer
content, provided the relocated line is not the last line of the new buffer
(the move-down guard passes, i.e. the text around the moved line —
the previous line together with the trailing part — is nonempty). -/
theorem moveUp_moveDown_roundtrip (P A B S : List Char) (s0 e0 : Nat)
    (hA : nl ∉ A) (hB : nl ∉ B) (hP : P = [] ∨ ∃ Q, P = Q ++ [nl])
    (hS : S = [] ∨ ∃ S₂, S = nl :: S₂)
    (hg1 : 1 ≤ P.length + A.length) (hg2 : 0 < A.length + S.length) :
    (applyEffects
      (applyEffects ⟨P ++ (A ++ (nl :: (B ++ S))), s0, e0⟩
        (moveUpEffects (P ++ (A ++ (nl :: (B ++ S)))) (P.length + A.length + 1)
          (P.length + A.length + 1 + B.length)))
      (moveDownEffects
        (applyEffects ⟨P ++ (A ++ (nl :: (B ++ S))), s0, e0⟩
          (moveUpEffects (P ++ (A ++ (nl :: (B ++ S)))) (P.length + A.length + 1)
            (P.length + A.length + 1 + B.length))).text
        (applyEffects ⟨P ++ (A ++ (nl :: (B ++ S))), s0, e0⟩
          (moveUpEffects (P ++ (A ++ (nl :: (B ++ S)))) (P.length + A.length + 1)
            (P.length + A.length + 1 + B.length))).selStart
        ((applyEffects ⟨P ++ (A ++ (nl :: (B ++ S))), s0, e0⟩
          (moveUpEffects (P ++ (A ++ (nl :: (B ++ S)))) (P.length + A.length + 1)
            (P.length + A.length + 1 + B.length))).selStart + B.length))).text
      = P ++ (A ++ (nl :: (B ++ S))) := by
  rw [moveUp_apply P A B S hA hP hg1 s0 e0]
  dsimp only
  rw [moveDown_apply P B A S hA hS hg2 P.length P.length]

/-- Witness for the amended C4: buffer `"a\nb\nc"`, "move line up" on the
line `"b"` then "move line down" on the relocated line restores the buffer. -/
theorem moveUp_moveDown_roundtrip_witness :
    (applyEffects
      (applyEffects ⟨[] ++ (['a'] ++ (nl :: (['b'] ++ [nl, 'c']))), 2, 3⟩
        (moveUpEffects ([] ++ (['a'] ++ (nl :: (['b'] ++ [nl, 'c']))))
          (List.length ([] : List Char) + ['a'].length + 1)
          (List.length ([] : List Char) + ['a'].length + 1 + ['b'].length)))
      (moveDownEffects
        (applyEffects ⟨[] ++ (['a'] ++ (nl :: (['b'] ++ [nl, 'c']))), 2, 3⟩
          (moveUpEffects ([] ++ (['a'] ++ (nl :: (['b'] ++ [nl, 'c']))))
            (List.length ([] : List Char) + ['a'].length + 1)
            (List.length ([] : List Char) + ['a'].length + 1 + ['b'].length))).text
        (applyEffects ⟨[] ++ (['a'] ++ (nl :: (['b'] ++ [nl, 'c']))), 2, 3⟩
          (moveUpEffects ([] ++ (['a'] ++ (nl :: (['b'] ++ [nl, 'c']))))
            (List.length ([] : List Char) + ['a'].length + 1)
            (List.length ([] : List Char) + ['a'].length + 1 + ['b'].length))).selStart
        ((applyEffects ⟨[] ++ (['a'] ++ (nl :: (['b'] ++ [nl, 'c']))), 2, 3⟩
          (moveUpEffects ([] ++ (['a'] ++ (nl :: (['b'] ++ [nl, 'c']))))
            (List.length ([] : List Char) + ['a'].length + 1)
            (List.length ([] : List Char) + ['a'].length + 1 + ['b'].length))).selStart
          + ['b'].length))).text
      = [] ++ (['a'] ++ (nl :: (['b'] ++ [nl, 'c']))) :=
  moveUp_moveDown_roundtrip [] ['a'] ['b'] [nl, 'c'] 2 3 (by decide) (by decide)
    (Or.inl rfl) (Or.inr ⟨['c'], rfl⟩) (by decide) (by decide)


/-- C7: when "move line up" takes its mutation branch, it performs exactly
one buffer mutation — replacing exactly the span `[prevStart, end)` with
`currentLine`, a single newline, and `prevLine` — and exactly one selection
update collapsing the selection to the point `prevStart`; every character
of the buffer before `prevStart` and from `end` on is unchanged. -/
theorem moveUp_frame (P A B S : List Char) (s0 e0 : Nat) (hA : nl ∉ A)
    (hP : P = [] ∨ ∃ Q, P = Q ++ [nl]) (hguard : 1 ≤ P.length + A.length) :
    moveUpEffects (P ++ (A ++ (nl :: (B ++ S)))) (P.length + A.length + 1)
        (P.length + A.length + 1 + B.length) =
      [Effect.replace P.length (P.length + A.length + 1 + B.length)
         (substringRange (P ++ (A ++ (nl :: (B ++ S)))) (P.length + A.length + 1)
             (P.length + A.length + 1 + B.length)
           ++ nl :: substringRange (P ++ (A ++ (nl :: (B ++ S)))) P.length
             (P.length + A.length)),
       Effect.setSel P.length none] ∧
    (applyEffects ⟨P ++ (A ++ (nl :: (B ++ S))), s0, e0⟩
        (moveUpEffects (P ++ (A ++ (nl :: (B ++ S)))) (P.length + A.length + 1)
          (P.length + A.length + 1 + B.length))).text.take P.length
      = (P ++ (A ++ (nl :: (B ++ S)))).take P.length ∧
    (applyEffects ⟨P ++ (A ++ (nl :: (B ++ S))), s0, e0⟩
        (moveUpEffects (P ++ (A ++ (nl :: (B ++ S)))) (P.length + A.length + 1)
          (P.length + A.length + 1 + B.length))).text.drop
        (P.length + A.length + 1 + B.length)
      = (P ++ (A ++ (nl :: (B ++ S)))).drop (P.length + A.length + 1 + B.length) ∧
    (applyEffects ⟨P ++ (A ++ (nl :: (B ++ S))), s0, e0⟩
        (moveUpEffects (P ++ (A ++ (nl :: (B ++ S)))) (P.length + A.length + 1)
          (P.length + A.length + 1 + B.length))).selStart = P.length ∧
    (applyEffects ⟨P ++ (A ++ (nl :: (B ++ S))), s0, e0⟩
        (moveUpEffects (P ++ (A ++ (nl :: (B ++ S)))) (P.length + A.length + 1)
          (P.length + A.length + 1 + B.length))).selEnd = P.length := by
  refine ⟨?_, ?_, ?_, ?_, ?_⟩
  · rw [currentLine_eq, prevLine_eq]
    exact moveUp_core P A B S hA hP hguard
  · rw [moveUp_apply P A B S hA hP hguard s0 e0]
    dsimp only
    rw [take_start_eq, take_start_eq]
  · rw [moveUp_apply P A B S hA hP hguard s0 e0]
    dsimp only
    rw [drop_end_eq P A B S,
      show P.length + A.length + 1 + B.length = P.length + B.length + 1 + A.length by omega]
    exact drop_end_eq P B A S
  · rw [moveUp_apply P A B S hA hP hguard s0 e0]
  · rw [moveUp_apply P A B S hA hP hguard s0 e0]

/-- Witness for C7 at the buffer `"a\nb"` with the line `"b"` selected. -/
theorem moveUp_frame_witness :
    nl ∉ ['a'] ∧
    (moveUpEffects ([] ++ (['a'] ++ (nl :: (['b'] ++ []))))
        (List.length ([] : List Char) + ['a'].length + 1)
        (List.length ([] : List Char) + ['a'].length + 1 + ['b'].length) =
      [Effect.replace (List.length ([] : List Char))
         (List.length ([] : List Char) + ['a'].length + 1 + ['b'].length)
         (substringRange ([] ++ (['a'] ++ (nl :: (['b'] ++ []))))
             (List.length ([] : List Char) + ['a'].length + 1)
             (List.length ([] : List Char) + ['a'].length + 1 + ['b'].length)
           ++ nl :: substringRange ([] ++ (['a'] ++ (nl :: (['b'] ++ []))))
             (List.length ([] : List Char))
             (List.length ([] : List Char) + ['a'].length)),
       Effect.setSel (List.length ([] : List Char)) none] ∧
      (applyEffects ⟨[] ++ (['a'] ++ (nl :: (['b'] ++ []))), 2, 3⟩
          (moveUpEffects ([] ++ (['a'] ++ (nl :: (['b'] ++ []))))
            (List.length ([] : List Char) + ['a'].length + 1)
            (List.length ([] : List Char) + ['a'].length + 1 + ['b'].length))).text.take
          (List.length ([] : List Char))
        = ([] ++ (['a'] ++ (nl :: (['b'] ++ [])))).take (List.length ([] : List Char)) ∧
      (applyEffects ⟨[] ++ (['a'] ++ (nl :: (['b'] ++ []))), 2, 3⟩
          (moveUpEffects ([] ++ (['a'] ++ (nl :: (['b'] ++ []))))
            (List.length ([] : List Char) + ['a'].length + 1)
            (List.length ([] : List Char) + ['a'].length + 1 + ['b'].length))).text.drop
          (List.length ([] : List Char) + ['a'].length + 1 + ['b'].length)
        = ([] ++ (['a'] ++ (nl :: (['b'] ++ [])))).drop
            (List.length ([] : List Char) + ['a'].length + 1 + ['b'].length) ∧
      (applyEffects ⟨[] ++ (['a'] ++ (nl :: (['b'] ++ []))), 2, 3⟩
          (moveUpEffects ([] ++ (['a'] ++ (nl :: (['b'] ++ []))))
            (List.length ([] : List Char) + ['a'].length + 1)
            (List.length ([] : List Char) + ['a'].length + 1 + ['b'].length))).selStart
        = List.length ([] : List Char) ∧
      (applyEffects ⟨[] ++ (['a'] ++ (nl :: (['b'] ++ []))), 2, 3⟩
          (moveUpEffects ([] ++ (['a'] ++ (nl :: (['b'] ++ []))))
            (List.length ([] : List Char) + ['a'].length + 1)
            (List.length ([] : List Char) + ['a'].length + 1 + ['b'].length))).selEnd
        = List.length ([] : List Char)) :=
  ⟨by decide, moveUp_frame [] ['a'] ['b'] [] 2 3 (by decide) (Or.inl rfl) (by decide)⟩

/-- C8: when "move line down" takes its mutation branch, it performs exactly
one buffer mutation — replacing exactly the span `[start, nextEnd)` with the
next line, a single newline, and the current line — and no selection
update: every character before `start` and from `nextEnd` on is unchanged,
and the selection components keep their prior values. -/
theorem moveDown_frame (P A B S : List Char) (s0 e0 : Nat) (hB : nl ∉ B)
    (hS : S = [] ∨ ∃ S₂, S = nl :: S₂) (hguard : 0 < B.length + S.length) :
    moveDownEffects (P ++ (A ++ (nl :: (B ++ S)))) P.length (P.length + A.length) =
      [Effect.replace P.length (P.length + A.length + 1 + B.length)
        (substringRange (P ++ (A ++ (nl :: (B ++ S)))) (P.length + A.length + 1)
            (P.length + A.length + 1 + B.length)
          ++ nl :: substringRange (P ++ (A ++ (nl :: (B ++ S)))) P.length
            (P.length + A.length))] ∧
    (applyEffects ⟨P ++ (A ++ (nl :: (B ++ S))), s0, e0⟩
        (moveDownEffects (P ++ (A ++ (nl :: (B ++ S)))) P.length
          (P.length + A.length))).text.take P.length
      = (P ++ (A ++ (nl :: (B ++ S)))).take P.length ∧
    (applyEffects ⟨P ++ (A ++ (nl :: (B ++ S))), s0, e0⟩
        (moveDownEffects (P ++ (A ++ (nl :: (B ++ S)))) P.length
          (P.length + A.length))).text.drop (P.length + A.length + 1 + B.length)
      = (P ++ (A ++ (nl :: (B ++ S)))).drop (P.length + A.length + 1 + B.length) ∧
    (applyEffects ⟨P ++ (A ++ (nl :: (B ++ S))), s0, e0⟩
        (moveDownEffects (P ++ (A ++ (nl :: (B ++ S)))) P.length
          (P.length + A.length))).selStart = s0 ∧
    (applyEffects ⟨P ++ (A ++ (nl :: (B ++ S))), s0, e0⟩
        (moveDownEffects (P ++ (A ++ (nl :: (B ++ S)))) P.length
          (P.length + A.length))).selEnd = e0 := by
  refine ⟨?_, ?_, ?_, ?_, ?_⟩
  · rw [currentLine_eq, prevLine_eq]
    exact moveDown_core P A B S hB hS hguard
  · rw [moveDown_apply P A B S hB hS hguard s0 e0]
    dsimp only
    rw [take_start_eq, take_start_eq]
  · rw [moveDown_apply P A B S hB hS hguard s0 e0]
    dsimp only
    rw [drop_end_eq P A B S,
      show P.length + A.length + 1 + B.length = P.length + B.length + 1 + A.length by omega]
    exact drop_end_eq P B A S
  · rw [moveDown_apply P A B S hB hS hguard s0 e0]
  · rw [moveDown_apply P A B S hB hS hguard s0 e0]

/-- Witness for C8 at the buffer `"a\nb"` with the line `"a"` selected. -/
theorem moveDown_frame_witness :
    nl ∉ ['b'] ∧
    (moveDownEffects ([] ++ (['a'] ++ (nl :: (['b'] ++ []))))
        (List.length ([] : List Char))
        (List.length ([] : List Char) + ['a'].length) =
      [Effect.replace (List.length ([] : List Char))
        (List.length ([] : List Char) + ['a'].length + 1 + ['b'].length)
        (substringRange ([] ++ (['a'] ++ (nl :: (['b'] ++ []))))
            (List.length ([] : List Char) + ['a'].length + 1)
            (List.length ([] : List Char) + ['a'].length + 1 + ['b'].length)
          ++ nl :: substringRange ([] ++ (['a'] ++ (nl :: (['b'] ++ []))))
            (List.length ([] : List Char))
            (List.length ([] : List Char) + ['a'].length))] ∧
      (applyEffects ⟨[] ++ (['a'] ++ (nl :: (['b'] ++ []))), 0, 1⟩
          (moveDownEffects ([] ++ (['a'] ++ (nl :: (['b'] ++ []))))
            (List.length ([] : List Char))
            (List.length ([] : List Char) + ['a'].length))).text.take
          (List.length ([] : List Char))
        = ([] ++ (['a'] ++ (nl :: (['b'] ++ [])))).take (List.length ([] : List Char)) ∧
      (applyEffects ⟨[] ++ (['a'] ++ (nl :: (['b'] ++ []))), 0, 1⟩
          (moveDownEffects ([] ++ (['a'] ++ (nl :: (['b'] ++ []))))
            (List.length ([] : List Char))
            (List.length ([] : List Char) + ['a'].length))).text.drop
          (List.length ([] : List Char) + ['a'].length + 1 + ['b'].length)
        = ([] ++ (['a'] ++ (nl :: (['b'] ++ [])))).drop
            (List.length ([] : List Char) + ['a'].length + 1 + ['b'].length) ∧
      (applyEffects ⟨[] ++ (['a'] ++ (nl :: (['b'] ++ []))), 0, 1⟩
          (moveDownEffects ([] ++ (['a'] ++ (nl :: (['b'] ++ []))))
            (List.length ([] : List Char))
            (List.length ([] : List Char) + ['a'].length))).selStart = 0 ∧
      (applyEffects ⟨[] ++ (['a'] ++ (nl :: (['b'] ++ []))), 0, 1⟩
          (moveDownEffects ([] ++ (['a'] ++ (nl :: (['b'] ++ []))))
            (List.length ([] : List Char))
            (List.length ([] : List Char) + ['a'].length))).selEnd = 1) :=
  ⟨by decide, moveDown_frame [] ['a'] ['b'] [] 0 1 (by decide) (Or.inl rfl) (by decide)⟩


/-- C6: after any guarded transposition performed by "move line up" or
"move line down", the total character count of the buffer is unchanged (the
swap is length-preserving), and the selection afterwards references valid
offsets within the new buffer length (for "move line down", which issues no
selection call, this holds whenever the prior selection was valid). -/
theorem transposition_invariants :
    (∀ (P A B S : List Char) (s0 e0 : Nat), nl ∉ A →
      (P = [] ∨ ∃ Q, P = Q ++ [nl]) → 1 ≤ P.length + A.length →
      ((applyEffects ⟨P ++ (A ++ (nl :: (B ++ S))), s0, e0⟩
          (moveUpEffects (P ++ (A ++ (nl :: (B ++ S)))) (P.length + A.length + 1)
            (P.length + A.length + 1 + B.length))).text.length
          = (P ++ (A ++ (nl :: (B ++ S)))).length ∧
        (applyEffects ⟨P ++ (A ++ (nl :: (B ++ S))), s0, e0⟩
          (moveUpEffects (P ++ (A ++ (nl :: (B ++ S)))) (P.length + A.length + 1)
            (P.length + A.length + 1 + B.length))).selStart
          ≤ (applyEffects ⟨P ++ (A ++ (nl :: (B ++ S))), s0, e0⟩
              (moveUpEffects (P ++ (A ++ (nl :: (B ++ S)))) (P.length + A.length + 1)
                (P.length + A.length + 1 + B.length))).text.length ∧
        (applyEffects ⟨P ++ (A ++ (nl :: (B ++ S))), s0, e0⟩
          (moveUpEffects (P ++ (A ++ (nl :: (B ++ S)))) (P.length + A.length + 1)
            (P.length + A.length + 1 + B.length))).selEnd
          ≤ (applyEffects ⟨P ++ (A ++ (nl :: (B ++ S))), s0, e0⟩
              (moveUpEffects (P ++ (A ++ (nl :: (B ++ S)))) (P.length + A.length + 1)
                (P.length + A.length + 1 + B.length))).text.length)) ∧
    (∀ (P A B S : List Char) (s0 e0 : Nat), nl ∉ B →
      (S = [] ∨ ∃ S₂, S = nl :: S₂) → 0 < B.length + S.length →
      s0 ≤ (P ++ (A ++ (nl :: (B ++ S)))).length →
      e0 ≤ (P ++ (A ++ (nl :: (B ++ S)))).length →
      ((applyEffects ⟨P ++ (A ++ (nl :: (B ++ S))), s0, e0⟩
          (moveDownEffects (P ++ (A ++ (nl :: (B ++ S)))) P.length
            (P.length + A.length))).text.length
          = (P ++ (A ++ (nl :: (B ++ S)))).length ∧
        (applyEffects ⟨P ++ (A ++ (nl :: (B ++ S))), s0, e0⟩
          (moveDownEffects (P ++ (A ++ (nl :: (B ++ S)))) P.length
            (P.length + A.length))).selStart
          ≤ (applyEffects ⟨P ++ (A ++ (nl :: (B ++ S))), s0, e0⟩
              (moveDownEffects (P ++ (A ++ (nl :: (B ++ S)))) P.length
                (P.length + A.length))).text.length ∧
        (applyEffects ⟨P ++ (A ++ (nl :: (B ++ S))), s0, e0⟩
          (moveDownEffects (P ++ (A ++ (nl :: (B ++ S)))) P.length
            (P.length + A.length))).selEnd
          ≤ (applyEffects ⟨P ++ (A ++ (nl :: (B ++ S))), s0, e0⟩
              (moveDownEffects (P ++ (A ++ (nl :: (B ++ S)))) P.length
                (P.length + A.length))).text.length)) := by
  constructor
  · intro P A B S s0 e0 hA hP hguard
    rw [moveUp_apply P A B S hA hP hguard s0 e0]
    dsimp only
    refine ⟨?_, ?_, ?_⟩ <;>
      simp only [List.length_append, List.length_cons] <;> omega
  · intro P A B S s0 e0 hB hS hguard hs0 he0
    rw [moveDown_apply P A B S hB hS hguard s0 e0]
    dsimp only
    simp only [List.length_append, List.length_cons] at hs0 he0 ⊢
    refine ⟨by omega, by omega, by omega⟩

/-- Witness for C6: the "move line up" part at buffer `"a\nb"` with the
line `"b"` selected, and the "move line down" part at the same buffer with
the line `"a"` selected and a valid prior selection. -/
theorem transposition_invariants_witness :
    ((applyEffects ⟨[] ++ (['a'] ++ (nl :: (['b'] ++ []))), 2, 3⟩
        (moveUpEffects ([] ++ (['a'] ++ (nl :: (['b'] ++ []))))
          (List.length ([] : List Char) + ['a'].length + 1)
          (List.length ([] : List Char) + ['a'].length + 1 + ['b'].length))).text.length
        = ([] ++ (['a'] ++ (nl :: (['b'] ++ [])))).length ∧
      (applyEffects ⟨[] ++ (['a'] ++ (nl :: (['b'] ++ []))), 2, 3⟩
        (moveUpEffects ([] ++ (['a'] ++ (nl :: (['b'] ++ []))))
          (List.length ([] : List Char) + ['a'].length + 1)
          (List.length ([] : List Char) + ['a'].length + 1 + ['b'].length))).selStart
        ≤ (applyEffects ⟨[] ++ (['a'] ++ (nl :: (['b'] ++ []))), 2, 3⟩
            (moveUpEffects ([] ++ (['a'] ++ (nl :: (['b'] ++ []))))
              (List.length ([] : List Char) + ['a'].length + 1)
              (List.length ([] : List Char) + ['a'].length + 1 + ['b'].length))).text.length ∧
      (applyEffects ⟨[] ++ (['a'] ++ (nl :: (['b'] ++ []))), 2, 3⟩
        (moveUpEffects ([] ++ (['a'] ++ (nl :: (['b'] ++ []))))
          (List.length ([] : List Char) + ['a'].length + 1)
          (List.length ([] : List Char) + ['a'].length + 1 + ['b'].length))).selEnd
        ≤ (applyEffects ⟨[] ++ (['a'] ++ (nl :: (['b'] ++ []))), 2, 3⟩
            (moveUpEffects ([] ++ (['a'] ++ (nl :: (['b'] ++ []))))
              (List.length ([] : List Char) + ['a'].length + 1)
              (List.length ([] : List Char) + ['a'].length + 1 + ['b'].length))).text.length) ∧
    ((applyEffects ⟨[] ++ (['a'] ++ (nl :: (['b'] ++ []))), 0, 1⟩
        (moveDownEffects ([] ++ (['a'] ++ (nl :: (['b'] ++ []))))
          (List.length ([] : List Char))
          (List.length ([] : List Char) + ['a'].length))).text.length
        = ([] ++ (['a'] ++ (nl :: (['b'] ++ [])))).length ∧
      (applyEffects ⟨[] ++ (['a'] ++ (nl :: (['b'] ++ []))), 0, 1⟩
        (moveDownEffects ([] ++ (['a'] ++ (nl :: (['b'] ++ []))))
          (List.length ([] : List Char))
          (List.length ([] : List Char) + ['a'].length))).selStart
        ≤ (applyEffects ⟨[] ++ (['a'] ++ (nl :: (['b'] ++ []))), 0, 1⟩
            (moveDownEffects ([] ++ (['a'] ++ (nl :: (['b'] ++ []))))
              (List.length ([] : List Char))
              (List.length ([] : List Char) + ['a'].length))).text.length ∧
      (applyEffects ⟨[] ++ (['a'] ++ (nl :: (['b'] ++ []))), 0, 1⟩
        (moveDownEffects ([] ++ (['a'] ++ (nl :: (['b'] ++ []))))
          (List.length ([] : List Char))
          (List.length ([] : List Char) + ['a'].length))).selEnd
        ≤ (applyEffects ⟨[] ++ (['a'] ++ (nl :: (['b'] ++ []))), 0, 1⟩
            (moveDownEffects ([] ++ (['a'] ++ (nl :: (['b'] ++ []))))
              (List.length ([] : List Char))
              (List.length ([] : List Char) + ['a'].length))).text.length) :=
  ⟨transposition_invariants.1 [] ['a'] ['b'] [] 2 3 (by decide) (Or.inl rfl) (by decide),
   transposition_invariants.2 [] ['a'] ['b'] [] 0 1 (by decide) (Or.inl rfl) (by decide)
     (by decide) (by decide)⟩

/-- C10: under the declared host API (both `getTextInRange` arguments are
absolute positions), whenever `start + e ≥ 2` the guard range
`[eol - 1, 1)` of the trim script is empty, so the script never decrements
`eol` and is observationally equivalent to the single call
`setSelectedRange(start, e)`. -/
theorem trim_never_trims (text : List Char) (start e : Nat) (h : 2 ≤ start + e) :
    trimEffects text start e = [Effect.setSel start (some e)] := by
  have hempty : substringRange text (start + e - 1) 1 = [] := by
    rw [substringRange, show 1 - (start + e - 1) = 0 by omega, List.take_zero]
  simp only [trimEffects]
  rw [hempty, if_neg (show ¬([] : List Char) = [nl] by simp), Nat.add_sub_cancel_left]

/-- Witness for C10 at the buffer `"ab"` with line range `[0, 2)`. -/
theorem trim_never_trims_witness :
    2 ≤ 0 + 2 ∧ trimEffects "ab".toList 0 2 = [Effect.setSel 0 (some 2)] :=
  ⟨by decide, trim_never_trims "ab".toList 0 2 (by decide)⟩

/-- C5 is a code bug: at the buffer `"ab\n"` with host line range `[0, 3)`
— the spanned text `"ab\n"` ends in a newline — the trim script, under the
declared host API, sets the selection to `(0, 3)`, keeping the trailing
newline, instead of the claimed range `(0, 2)` that excludes it. -/
theorem trim_keeps_trailing_newline :
    substringRange "ab\n".toList 0 3 = ['a', 'b', nl] ∧
    trimEffects "ab\n".toList 0 3 = [Effect.setSel 0 (some 3)] ∧
    Effect.setSel 0 (some 3) ≠ Effect.setSel 0 (some 2) := by decide

end OneWriter
